import Mathlib

/-!
Shallow embedding of the URL/table state-synchronization logic of the
shadcn-table repository (src/hooks/use-data-table.ts and
src/components/data-table/data-table-advanced-filter-item.tsx), together
with proofs about the encoded operations.

JavaScript strings are Lean `String`s (a structure over `List Char`);
`value.split('.')` and `array.join('.')` are embedded as the character-level
functions `splitDotChars` / `joinDotChars` lifted to strings.  JavaScript
objects used as string-keyed records are embedded as association lists
`List (String × α)` where `Object.assign`/property update is `objAssign`
(replace the binding if the key is present, append otherwise) and property
lookup is `lookupP` (first binding wins; keys are unique in every object the
code builds).
-/

/-- JavaScript `s.split('.')` on the character list of a string:
`"".split('.') = [""]`, and each `'.'` starts a new chunk. -/
def splitDotChars : List Char → List (List Char)
  | [] => [[]]
  | c :: cs =>
    let rest := splitDotChars cs
    if c = '.' then [] :: rest
    else (c :: rest.headD []) :: rest.tail

/-- JavaScript `parts.join('.')` on character lists. -/
def joinDotChars : List (List Char) → List Char
  | [] => []
  | [w] => w
  | w :: x :: xs => w ++ '.' :: joinDotChars (x :: xs)

/-- JavaScript `s.split('.')` for strings. -/
def jsSplitDot (s : String) : List String :=
  (splitDotChars s.data).map String.mk

/-- JavaScript `parts.join('.')` for strings. -/
def jsJoinDot (l : List String) : String :=
  String.mk (joinDotChars (l.map String.data))

/-- One option of a faceted filter field (`{ label, value }`; the optional
icon carries no behavior and is omitted). -/
structure FilterOption where
  label : String
  value : String
deriving DecidableEq

/-- `DataTableFilterField`: `{ label, value, placeholder?, options? }`.
Faceted filters carry `options`; search filters do not. -/
structure FilterField where
  label : String
  value : String
  placeholder : Option String
  options : Option (List FilterOption)
deriving DecidableEq

/-- `filterableColumns = filterFields.filter((field) => field.options)`
(use-data-table.ts line 139; a present array is truthy). -/
def filterableColumns (fields : List FilterField) : List FilterField :=
  fields.filter fun f => f.options.isSome

/-- `searchableColumns = filterFields.filter((field) => !field.options)`
(use-data-table.ts line 140). -/
def searchableColumns (fields : List FilterField) : List FilterField :=
  fields.filter fun f => !f.options.isSome

/-- A TanStack column-filter value as this code inspects it: a string
(search filters), an array of strings (faceted filters), or anything else. -/
inductive FilterValue where
  | str : String → FilterValue
  | strList : List String → FilterValue
  | other : FilterValue
deriving DecidableEq

/-- One entry of `ColumnFiltersState`: `{ id, value }`. -/
structure ColumnFilter where
  id : String
  value : FilterValue
deriving DecidableEq

/-- A value of the `queryState` object read through nuqs, or of the
`newParamsObject` the filter-sync effect builds: a string, a number, or
`null`. -/
inductive QueryValue where
  | str : String → QueryValue
  | int : Int → QueryValue
  | null : QueryValue
deriving DecidableEq

/-- JavaScript property assignment `obj[k] = v` on an association list:
replace the first binding of `k` when present, append otherwise. -/
def objAssign {α : Type} : List (String × α) → String → α → List (String × α)
  | [], k, v => [(k, v)]
  | p :: rest, k, v => if p.1 = k then (k, v) :: rest else p :: objAssign rest k v

/-- Fold a list of property assignments over an object, in order
(`Object.assign(o, ...)` / object-spread semantics: later keys override). -/
def applyAssigns {α : Type} (o : List (String × α)) (l : List (String × α)) :
    List (String × α) :=
  l.foldl (fun acc kv => objAssign acc kv.1 kv.2) o

/-- JavaScript property read `obj[k]` on an association list. -/
def lookupP {α : Type} (o : List (String × α)) (k : String) : Option α :=
  (o.find? fun p => p.1 = k).map (·.2)

/-- The keys of an object, in order. -/
def keysOf {α : Type} (o : List (String × α)) : List String :=
  o.map Prod.fst

/-- One entry of TanStack `SortingState`: `{ id, desc }`. -/
structure SortEntry where
  id : String
  desc : Bool
deriving DecidableEq

/-- Encoding of the sorting state into the `sort` query parameter
(use-data-table.ts lines 221-226): `sorting[0]?.id` truthy yields
`` `${id}.${desc ? 'desc' : 'asc'}` ``, otherwise `null`. -/
def sortParamOfSorting (sorting : List SortEntry) : Option String :=
  match sorting.head? with
  | some s =>
    if s.id = "" then none
    else some (s.id ++ "." ++ (if s.desc then "desc" else "asc"))
  | none => none

/-- Restoring the sorting state from the `sort` query parameter
(use-data-table.ts lines 134 and 213-218):
`const [column, order] = queryState.sort?.split('.') ?? []` and then
`[{ desc: order === 'desc', id: column ?? '' }]`. -/
def sortingOfSortParam (sort : Option String) : List SortEntry :=
  let parts : List String :=
    match sort with
    | some s => jsSplitDot s
    | none => []
  let column : Option String := parts.head?
  let order : Option String := parts[1]?
  [{ id := column.getD "", desc := if order = some "desc" then true else false }]

/-- The per-key step of `initialColumnFilters` (use-data-table.ts lines
146-172): a non-empty string value for a filterable key becomes the filter
`{ id: key, value: value.split('.') }`, for a merely searchable key the
filter `{ id: key, value: [value] }`, and anything else contributes no
filter (a number or null has no truthy `.length`). -/
def initialFilterStep (fields : List FilterField) (k : String) (v : QueryValue) :
    List ColumnFilter :=
  let filterableColumn := (filterableColumns fields).find? fun c => c.value = k
  let searchableColumn := (searchableColumns fields).find? fun c => c.value = k
  match v with
  | QueryValue.str s =>
    if s.length ≠ 0 ∧ filterableColumn.isSome then
      [⟨k, FilterValue.strList (jsSplitDot s)⟩]
    else if s.length ≠ 0 ∧ searchableColumn.isSome then
      [⟨k, FilterValue.strList [s]⟩]
    else []
  | _ => []

/-- `initialColumnFilters` (use-data-table.ts lines 145-173): the reduce over
`Object.keys(queryState)` pushing a filter per key as `initialFilterStep`
describes. -/
def initialColumnFilters (fields : List FilterField) :
    List (String × QueryValue) → List ColumnFilter
  | [] => []
  | (k, v) :: rest => initialFilterStep fields k v ++ initialColumnFilters fields rest

/-- The assignments the filter-sync effect makes for the debounced searchable
column filters (use-data-table.ts lines 265-271): each filter whose value is
a string is written to its key unchanged. -/
def searchableAssigns (ds : List ColumnFilter) : List (String × QueryValue) :=
  ds.filterMap fun c =>
    match c.value with
    | FilterValue.str v => some (c.id, QueryValue.str v)
    | _ => none

/-- The assignments the filter-sync effect makes for the filterable column
filters (use-data-table.ts lines 274-278): each filter whose value is an
array is written to its key joined with `'.'`. -/
def filterableAssigns (fs : List ColumnFilter) : List (String × QueryValue) :=
  fs.filterMap fun c =>
    match c.value with
    | FilterValue.strList vs => some (c.id, QueryValue.str (jsJoinDot vs))
    | _ => none

/-- The stale-key test of the removal loop (use-data-table.ts lines 282-289):
the key names a searchable column with no debounced searchable filter, or a
filterable column with no filterable filter. -/
def staleKey (fields : List FilterField) (ds fs : List ColumnFilter)
    (key : String) : Bool :=
  ((searchableColumns fields).any (fun c => c.value = key)
      && !(ds.any fun c => c.id = key))
  || ((filterableColumns fields).any (fun c => c.value = key)
      && !(fs.any fun c => c.id = key))

/-- The null assignments of the removal loop (use-data-table.ts lines
281-292): every stale key of the current URL search params is set to null. -/
def removalAssigns (fields : List FilterField) (ds fs : List ColumnFilter)
    (keys : List String) : List (String × QueryValue) :=
  keys.filterMap fun key =>
    if staleKey fields ds fs key then some (key, QueryValue.null) else none

/-- `newParamsObject` of the filter-sync effect (use-data-table.ts lines
260-292): starts as `{ pageIndex: 0 }`, then the searchable assignments, the
filterable assignments, and the removal assignments in program order. -/
def newParamsObject (fields : List FilterField) (ds fs : List ColumnFilter)
    (keys : List String) : List (String × QueryValue) :=
  applyAssigns
    (applyAssigns
      (applyAssigns [("pageIndex", QueryValue.int 0)] (searchableAssigns ds))
      (filterableAssigns fs))
    (removalAssigns fields ds fs keys)

/-- The inputs one run of the filter-sync effect reads: the flags, the
debounced searchable column filters, the filterable column filters, the
current URL search-param keys, and the current `queryState` object. -/
structure FilterSyncInput where
  enableAdvancedFilter : Bool
  mounted : Bool
  dsFilters : List ColumnFilter
  fFilters : List ColumnFilter
  searchParamKeys : List String
  queryState : List (String × QueryValue)

/-- What one run of the filter-sync effect does: the value of the `mounted`
flag afterwards, the query state pushed through `setQueryState` (if any),
and whether `table.setPageIndex(0)` was called. -/
structure EffectResult where
  mounted : Bool
  pushedQueryState : Option (List (String × QueryValue))
  pageResetCalled : Bool
deriving DecidableEq

/-- The filter-sync effect of `useDataTable` (use-data-table.ts lines
249-301): return at once when advanced filtering is enabled; on the first
run only set `mounted`; otherwise push `{...queryState, ...newParamsObject}`
and reset the table page index to 0. -/
def filterSyncEffect (fields : List FilterField) (inp : FilterSyncInput) :
    EffectResult :=
  if inp.enableAdvancedFilter then ⟨inp.mounted, none, false⟩
  else if inp.mounted = false then ⟨true, none, false⟩
  else
    ⟨inp.mounted,
      some (applyAssigns inp.queryState
        (newParamsObject fields inp.dsFilters inp.fFilters inp.searchParamKeys)),
      true⟩

/-- Property read on the query state an effect run pushed: `none` when the
run pushed nothing. -/
def pushedLookup (r : EffectResult) (k : String) : Option QueryValue :=
  match r.pushedQueryState with
  | none => none
  | some qs => lookupP qs k

/-- The per-run inputs of a sequence of filter changes (the filter lists and
the URL contents each run of the filter-sync effect observes). -/
structure FilterChange where
  dsFilters : List ColumnFilter
  fFilters : List ColumnFilter
  searchParamKeys : List String
  queryState : List (String × QueryValue)

/-- Run the filter-sync effect over a sequence of filter changes, threading
the `mounted` flag and collecting every pushed query state and the number of
page resets. -/
def runFilterSync (fields : List FilterField) (adv : Bool) (mounted : Bool) :
    List FilterChange → Bool × List (List (String × QueryValue)) × Nat
  | [] => (mounted, [], 0)
  | c :: rest =>
    let r := filterSyncEffect fields
      ⟨adv, mounted, c.dsFilters, c.fFilters, c.searchParamKeys, c.queryState⟩
    let rec' := runFilterSync fields adv r.mounted rest
    (rec'.1, r.pushedQueryState.toList ++ rec'.2.1,
      (if r.pageResetCalled then 1 else 0) + rec'.2.2)

/-- The raw query parameters of the current URL, as key/value pairs. -/
def getParam (params : List (String × String)) (k : String) : Option String :=
  lookupP params k

/-- The integer parsing of nuqs `parseAsInteger` applied to a raw value
(modelled by Lean integer parsing; every claim below only evaluates it on an
absent parameter, where the parser's `withDefault` value is returned). -/
def parseAsIntegerRaw (s : String) : Option Int :=
  s.toInt?

/-- nuqs `parseAsInteger.withDefault(d)` read of key `k`: the parsed value
when the parameter is present and parses, `d` otherwise. -/
def parseIntegerParam (params : List (String × String)) (k : String) (d : Int) :
    Int :=
  match getParam params k with
  | none => d
  | some s => (parseAsIntegerRaw s).getD d

/-- The parsed query state `useDataTable` binds to the table. -/
structure ParsedQueryState where
  filters : List (String × Option String)
  pageIndex : Int
  pageSize : Int
  sort : String
deriving DecidableEq

/-- The `defaultPageSize = 10` default of `useDataTable`
(use-data-table.ts line 104). -/
def defaultPageSizeDefault : Int := 10

/-- The `defaultSort = 'createdAt.desc'` default of `useDataTable`
(use-data-table.ts line 105). -/
def defaultSortDefault : String := "createdAt.desc"

/-- The `useQueryStates` read of `useDataTable` (use-data-table.ts lines
118-131): every filter field's key through plain `parseAsString` (null when
absent), plus `pageIndex`/`pageSize` through `parseAsInteger.withDefault`
of `0`/`defaultPageSize` and `sort` through `parseAsString.withDefault` of
`defaultSort`. -/
def useDataTableQueryState (fields : List FilterField) (defaultPageSize : Int)
    (defaultSort : String) (params : List (String × String)) :
    ParsedQueryState :=
  { filters := fields.map fun f => (f.value, getParam params f.value)
  , pageIndex := parseIntegerParam params "pageIndex" 0
  , pageSize := parseIntegerParam params "pageSize" defaultPageSize
  , sort := (getParam params "sort").getD defaultSort }

/-- `createQueryString` of `DataTableAdvancedFilterItem`
(data-table-advanced-filter-item.tsx lines 184-199): starting from the
current search params, a null value deletes its key
(`newSearchParams.delete`), any other value is stringified and set
(`newSearchParams.set`).  `URLSearchParams` is modelled as an association
list with unique keys, so `set` is `objAssign` and `delete` drops every
binding of the key. -/
def createQueryString (searchParams : List (String × String))
    (params : List (String × QueryValue)) : List (String × String) :=
  params.foldl
    (fun ps kv =>
      match kv.2 with
      | QueryValue.null => ps.filter fun p => ¬p.1 = kv.1
      | QueryValue.str s => objAssign ps kv.1 s
      | QueryValue.int n => objAssign ps kv.1 (toString n))
    searchParams

/-- The debounced-input effect of `DataTableAdvancedFilterItem`
(data-table-advanced-filter-item.tsx lines 201-227): a non-empty debounced
value pushes the URL with the selected option's key set to
`` `${debounceValue}.${filterVariety}` ``, an empty one pushes it with the
key set to null (deleted). -/
def advancedFilterItemPush (searchParams : List (String × String))
    (optionValue debounceValue filterVariety : String) :
    List (String × String) :=
  if debounceValue.length > 0 then
    createQueryString searchParams
      [(optionValue, QueryValue.str (debounceValue ++ "." ++ filterVariety))]
  else
    createQueryString searchParams [(optionValue, QueryValue.null)]

/-- A change of a debounced input signal: the instant (in milliseconds) at
which the input took a new value. -/
structure ChangeEvent where
  time : Nat
  value : String
deriving DecidableEq

/-- Modelled from the spec: the `useDebounce` hook (src/hooks/use-debounce,
absent from the repository snapshot) is the standard trailing debounce the
spec calls "standard input debouncing" — each input change arms a
`delay`-millisecond timer and cancels the previous one, so the debounced
value (and with it every effect keyed on it, such as the URL pushes of the
filter-sync effect and of `DataTableAdvancedFilterItem`) updates at
`time + delay` exactly when no further change pre-empts the timer.  Both
call sites use `delay = 500`. -/
def debounceEmissions (delay : Nat) : List ChangeEvent → List ChangeEvent
  | [] => []
  | [e] => [⟨e.time + delay, e.value⟩]
  | e :: f :: rest =>
    if e.time + delay ≤ f.time then
      ⟨e.time + delay, e.value⟩ :: debounceEmissions delay (f :: rest)
    else
      debounceEmissions delay (f :: rest)

theorem splitDotChars_of_no_dot (cs : List Char) (h : '.' ∉ cs) :
    splitDotChars cs = [cs] := by
  induction cs with
  | nil => rfl
  | cons c cs ih =>
    have hc : c ≠ '.' := fun hce => h (hce ▸ List.mem_cons_self c cs)
    have hcs : '.' ∉ cs := fun hm => h (List.mem_cons_of_mem c hm)
    simp [splitDotChars, hc, ih hcs]

theorem splitDotChars_append_dot (x t : List Char) (h : '.' ∉ x) :
    splitDotChars (x ++ '.' :: t) = x :: splitDotChars t := by
  induction x with
  | nil => simp [splitDotChars]
  | cons c x ih =>
    have hc : c ≠ '.' := fun hce => h (hce ▸ List.mem_cons_self c x)
    have hx : '.' ∉ x := fun hm => h (List.mem_cons_of_mem c hm)
    simp [splitDotChars, hc, ih hx]

theorem splitDotChars_joinDotChars (l : List (List Char))
    (h : ∀ w ∈ l, '.' ∉ w) (hne : l ≠ []) :
    splitDotChars (joinDotChars l) = l := by
  induction l with
  | nil => exact absurd rfl hne
  | cons w l ih =>
    cases l with
    | nil => exact splitDotChars_of_no_dot w (h w (List.mem_cons_self w []))
    | cons x xs =>
      have hw : '.' ∉ w := h w (List.mem_cons_self w (x :: xs))
      have hrest : ∀ v ∈ x :: xs, '.' ∉ v := fun v hv =>
        h v (List.mem_cons_of_mem w hv)
      show splitDotChars (w ++ '.' :: joinDotChars (x :: xs)) = w :: x :: xs
      rw [splitDotChars_append_dot w _ hw, ih hrest (by simp)]

theorem string_data_append (a b : String) : (a ++ b).data = a.data ++ b.data := rfl

theorem jsSplitDot_jsJoinDot (l : List String)
    (h : ∀ s ∈ l, '.' ∉ s.data) (hne : l ≠ []) :
    jsSplitDot (jsJoinDot l) = l := by
  unfold jsSplitDot jsJoinDot
  rw [show (String.mk (joinDotChars (l.map String.data))).data
        = joinDotChars (l.map String.data) from rfl]
  rw [splitDotChars_joinDotChars (l.map String.data)
        (by intro w hw
            obtain ⟨s, hs, rfl⟩ := List.mem_map.mp hw
            exact h s hs)
        (by simpa using hne)]
  rw [List.map_map]
  have hcomp : String.mk ∘ String.data = id := funext fun s => rfl
  rw [hcomp, List.map_id]

theorem lookupP_objAssign_self {α : Type} (o : List (String × α)) (k : String)
    (v : α) : lookupP (objAssign o k v) k = some v := by
  induction o with
  | nil => simp [objAssign, lookupP]
  | cons p rest ih =>
    by_cases hp : p.1 = k
    · simp [objAssign, hp, lookupP, List.find?_cons]
    · rw [show objAssign (p :: rest) k v = p :: objAssign rest k v from by
        simp [objAssign, hp]]
      simpa [lookupP, List.find?_cons, hp] using ih

theorem lookupP_objAssign_ne {α : Type} (o : List (String × α)) (k k' : String)
    (v : α) (h : k' ≠ k) : lookupP (objAssign o k v) k' = lookupP o k' := by
  induction o with
  | nil => simp [objAssign, lookupP, List.find?_cons, Ne.symm h]
  | cons p rest ih =>
    by_cases hp : p.1 = k
    · rw [show objAssign (p :: rest) k v = (k, v) :: rest from by
        simp [objAssign, hp]]
      simp [lookupP, List.find?_cons, Ne.symm h, hp]
    · rw [show objAssign (p :: rest) k v = p :: objAssign rest k v from by
        simp [objAssign, hp]]
      by_cases hp' : p.1 = k'
      · simp [lookupP, List.find?_cons, hp']
      · simpa [lookupP, List.find?_cons, hp'] using ih

theorem lookupP_applyAssigns_of_not_mem {α : Type} (l : List (String × α))
    (k : String) (h : ∀ p ∈ l, p.1 ≠ k) (o : List (String × α)) :
    lookupP (applyAssigns o l) k = lookupP o k := by
  induction l generalizing o with
  | nil => rfl
  | cons q t ih =>
    have hq : q.1 ≠ k := h q (List.mem_cons_self q t)
    have ht : ∀ p ∈ t, p.1 ≠ k := fun p hp => h p (List.mem_cons_of_mem q hp)
    show lookupP (applyAssigns (objAssign o q.1 q.2) t) k = lookupP o k
    rw [ih ht, lookupP_objAssign_ne o q.1 k q.2 (Ne.symm hq)]

theorem lookupP_applyAssigns_of_uniform {α : Type} (l : List (String × α))
    (k : String) (a : α) (hmem : (k, a) ∈ l)
    (huniq : ∀ v, (k, v) ∈ l → v = a) (o : List (String × α)) :
    lookupP (applyAssigns o l) k = some a := by
  induction l generalizing o with
  | nil => cases hmem
  | cons q t ih =>
    show lookupP (applyAssigns (objAssign o q.1 q.2) t) k = some a
    by_cases hqt : ∀ p ∈ t, p.1 ≠ k
    · have hq : q = (k, a) := by
        rcases List.mem_cons.mp hmem with h | h
        · exact h.symm
        · exact absurd rfl (hqt (k, a) h)
      rw [lookupP_applyAssigns_of_not_mem t k hqt, hq]
      exact lookupP_objAssign_self o k a
    · push_neg at hqt
      obtain ⟨⟨p1, p2⟩, hp, hpk⟩ := hqt
      dsimp at hpk
      subst hpk
      have hp2 : p2 = a := huniq p2 (List.mem_cons_of_mem q hp)
      subst hp2
      exact ih hp (fun v hv => huniq v (List.mem_cons_of_mem q hv))
        (objAssign o q.1 q.2)

theorem mem_keysOf_objAssign {α : Type} (o : List (String × α)) (k x : String)
    (v : α) (h : x ∈ keysOf (objAssign o k v)) : x ∈ keysOf o ∨ x = k := by
  induction o with
  | nil => simpa [objAssign, keysOf] using h
  | cons p rest ih =>
    by_cases hp : p.1 = k
    · rw [show objAssign (p :: rest) k v = (k, v) :: rest from by
        simp [objAssign, hp]] at h
      rcases (by simpa [keysOf] using h : x = k ∨ x ∈ keysOf rest) with h' | h'
      · exact Or.inr h'
      · exact Or.inl (by simp [keysOf]; exact Or.inr (by simpa [keysOf] using h'))
    · rw [show objAssign (p :: rest) k v = p :: objAssign rest k v from by
        simp [objAssign, hp]] at h
      rcases (by simpa [keysOf] using h :
          x = p.1 ∨ x ∈ keysOf (objAssign rest k v)) with h' | h'
      · exact Or.inl (by simp [keysOf, h'])
      · rcases ih h' with h'' | h''
        · exact Or.inl (by simp [keysOf]; exact Or.inr (by simpa [keysOf] using h''))
        · exact Or.inr h''

theorem nodupKeys_objAssign {α : Type} (o : List (String × α)) (k : String)
    (v : α) (h : (keysOf o).Nodup) : (keysOf (objAssign o k v)).Nodup := by
  induction o with
  | nil => simp [objAssign, keysOf]
  | cons p rest ih =>
    have hrest : (keysOf rest).Nodup :=
      (List.nodup_cons.mp (by simpa [keysOf] using h)).2
    have hnotin : p.1 ∉ keysOf rest :=
      (List.nodup_cons.mp (by simpa [keysOf] using h)).1
    by_cases hp : p.1 = k
    · rw [show objAssign (p :: rest) k v = (k, v) :: rest from by
        simp [objAssign, hp]]
      simp only [keysOf, List.map_cons, List.nodup_cons]
      exact ⟨by rw [← hp]; exact hnotin, hrest⟩
    · rw [show objAssign (p :: rest) k v = p :: objAssign rest k v from by
        simp [objAssign, hp]]
      simp only [keysOf, List.map_cons, List.nodup_cons]
      refine ⟨fun hmem => ?_, ih hrest⟩
      rcases mem_keysOf_objAssign rest k p.1 v (by simpa [keysOf] using hmem) with
        h' | h'
      · exact hnotin h'
      · exact hp h'

theorem nodupKeys_applyAssigns {α : Type} (l : List (String × α))
    (o : List (String × α)) (h : (keysOf o).Nodup) :
    (keysOf (applyAssigns o l)).Nodup := by
  induction l generalizing o with
  | nil => exact h
  | cons q t ih => exact ih (objAssign o q.1 q.2) (nodupKeys_objAssign o q.1 q.2 h)

theorem lookupP_applyAssigns_of_lookupP {α : Type} (l : List (String × α))
    (k : String) (v : α) (hnd : (keysOf l).Nodup) (hl : lookupP l k = some v)
    (o : List (String × α)) : lookupP (applyAssigns o l) k = some v := by
  induction l generalizing o with
  | nil => simp [lookupP] at hl
  | cons q t ih =>
    show lookupP (applyAssigns (objAssign o q.1 q.2) t) k = some v
    by_cases hq : q.1 = k
    · have hv : q.2 = v := by simpa [lookupP, List.find?_cons, hq] using hl
      have hnotin : q.1 ∉ keysOf t :=
        (List.nodup_cons.mp (by simpa [keysOf] using hnd)).1
      have hkt : ∀ p ∈ t, p.1 ≠ k := by
        intro p hp hpk
        exact hnotin (by rw [hq, ← hpk]; exact List.mem_map_of_mem Prod.fst hp)
      rw [lookupP_applyAssigns_of_not_mem t k hkt, hq, ← hv]
      exact lookupP_objAssign_self o k q.2
    · have hl' : lookupP t k = some v := by
        simpa [lookupP, List.find?_cons, hq] using hl
      exact ih (List.nodup_cons.mp (by simpa [keysOf] using hnd)).2 hl' _

theorem mem_removalAssigns (fields : List FilterField) (ds fs : List ColumnFilter)
    (keys : List String) (p : String × QueryValue)
    (h : p ∈ removalAssigns fields ds fs keys) :
    p.1 ∈ keys ∧ staleKey fields ds fs p.1 = true ∧ p.2 = QueryValue.null := by
  obtain ⟨key, hkey, hsome⟩ := List.mem_filterMap.mp h
  by_cases hst : staleKey fields ds fs key = true
  · rw [if_pos hst] at hsome
    cases hsome
    exact ⟨hkey, hst, rfl⟩
  · rw [if_neg hst] at hsome
    cases hsome

theorem removalAssigns_mem_intro (fields : List FilterField)
    (ds fs : List ColumnFilter) (keys : List String) (key : String)
    (h1 : key ∈ keys) (h2 : staleKey fields ds fs key = true) :
    (key, QueryValue.null) ∈ removalAssigns fields ds fs keys :=
  List.mem_filterMap.mpr ⟨key, h1, by rw [if_pos h2]⟩

theorem mem_searchableAssigns (ds : List ColumnFilter) (p : String × QueryValue)
    (h : p ∈ searchableAssigns ds) : ∃ c ∈ ds, p.1 = c.id := by
  obtain ⟨c, hc, hsome⟩ := List.mem_filterMap.mp h
  refine ⟨c, hc, ?_⟩
  cases hv : c.value with
  | str v => rw [hv] at hsome; cases hsome; rfl
  | strList vs => rw [hv] at hsome; cases hsome
  | other => rw [hv] at hsome; cases hsome

theorem mem_filterableAssigns (fs : List ColumnFilter) (p : String × QueryValue)
    (h : p ∈ filterableAssigns fs) : ∃ c ∈ fs, p.1 = c.id := by
  obtain ⟨c, hc, hsome⟩ := List.mem_filterMap.mp h
  refine ⟨c, hc, ?_⟩
  cases hv : c.value with
  | str v => rw [hv] at hsome; cases hsome
  | strList vs => rw [hv] at hsome; cases hsome; rfl
  | other => rw [hv] at hsome; cases hsome

theorem staleKey_field_exists (fields : List FilterField) (ds fs : List ColumnFilter)
    (key : String) (h : staleKey fields ds fs key = true) :
    ∃ f ∈ fields, f.value = key := by
  simp only [staleKey, Bool.or_eq_true, Bool.and_eq_true] at h
  rcases h with ⟨h, _⟩ | ⟨h, _⟩
  · obtain ⟨f, hf, hval⟩ := List.any_eq_true.mp h
    exact ⟨f, (List.mem_filter.mp hf).1, of_decide_eq_true hval⟩
  · obtain ⟨f, hf, hval⟩ := List.any_eq_true.mp h
    exact ⟨f, (List.mem_filter.mp hf).1, of_decide_eq_true hval⟩

theorem staleKey_true_of (fields : List FilterField) (ds fs : List ColumnFilter)
    (key : String)
    (hcol : (searchableColumns fields).any (fun c => c.value = key) = true
      ∨ (filterableColumns fields).any (fun c => c.value = key) = true)
    (hds : ∀ c ∈ ds, c.id ≠ key) (hfs : ∀ c ∈ fs, c.id ≠ key) :
    staleKey fields ds fs key = true := by
  have hdsb : ds.any (fun c => c.id = key) = false := by
    simp only [List.any_eq_false, decide_eq_true_eq]
    exact hds
  have hfsb : fs.any (fun c => c.id = key) = false := by
    simp only [List.any_eq_false, decide_eq_true_eq]
    exact hfs
  simp only [staleKey, hdsb, hfsb, Bool.not_false, Bool.and_true, Bool.or_eq_true]
  exact hcol

theorem string_length_ne_zero (s : String) (h : s ≠ "") : s.length ≠ 0 := by
  intro h0
  apply h
  cases s with
  | mk data =>
    have : data.length = 0 := h0
    have hdata : data = [] := List.length_eq_zero.mp this
    rw [hdata]

theorem uniqueFieldValue (fields : List FilterField)
    (hf : (fields.map FilterField.value).Nodup) (f g : FilterField)
    (hfm : f ∈ fields) (hgm : g ∈ fields) (h : f.value = g.value) : f = g :=
  List.inj_on_of_nodup_map hf hfm hgm h

theorem initialFilterStep_id (fields : List FilterField) (k : String)
    (v : QueryValue) : ∀ c ∈ initialFilterStep fields k v, c.id = k := by
  intro c hc
  cases v with
  | str s =>
    simp only [initialFilterStep] at hc
    split at hc
    · rw [List.mem_singleton.mp hc]
    · split at hc
      · rw [List.mem_singleton.mp hc]
      · cases hc
  | int n => cases hc
  | null => cases hc

theorem initialColumnFilters_mem_id (fields : List FilterField)
    (qs : List (String × QueryValue)) :
    ∀ c ∈ initialColumnFilters fields qs, ∃ p ∈ qs, c.id = p.1 := by
  induction qs with
  | nil => intro c hc; cases hc
  | cons p rest ih =>
    obtain ⟨k1, v1⟩ := p
    intro c hc
    rcases List.mem_append.mp hc with h1 | h1
    · exact ⟨(k1, v1), List.mem_cons_self _ _,
        initialFilterStep_id fields k1 v1 c h1⟩
    · obtain ⟨q, hq, he⟩ := ih c h1
      exact ⟨q, List.mem_cons_of_mem _ hq, he⟩

theorem initialColumnFilters_find_none (fields : List FilterField)
    (qs : List (String × QueryValue)) (k : String) (h : k ∉ keysOf qs) :
    (initialColumnFilters fields qs).find? (fun c => c.id = k) = none := by
  rw [List.find?_eq_none]
  intro c hc
  obtain ⟨p, hp, he⟩ := initialColumnFilters_mem_id fields qs c hc
  simp only [decide_eq_true_eq]
  intro hck
  have : p.1 ∈ keysOf qs := List.mem_map_of_mem Prod.fst hp
  rw [← he, hck] at this
  exact h this

theorem initialColumnFilters_find (fields : List FilterField)
    (qs : List (String × QueryValue)) (k : String) (v : QueryValue)
    (hnd : (keysOf qs).Nodup) (hmem : (k, v) ∈ qs) :
    (initialColumnFilters fields qs).find? (fun c => c.id = k)
      = (initialFilterStep fields k v).find? (fun c => c.id = k) := by
  induction qs with
  | nil => cases hmem
  | cons p rest ih =>
    obtain ⟨k1, v1⟩ := p
    have hnd' := List.nodup_cons.mp (show (k1 :: keysOf rest).Nodup from hnd)
    show ((initialFilterStep fields k1 v1
        ++ initialColumnFilters fields rest).find? fun c => c.id = k) = _
    rcases List.mem_cons.mp hmem with he | hmemt
    · injection he with he1 he2
      subst he1
      subst he2
      rw [List.find?_append,
        initialColumnFilters_find_none fields rest k hnd'.1, Option.or_none]
    · have hk1 : k ≠ k1 := by
        intro he
        exact hnd'.1 (he ▸ List.mem_map_of_mem Prod.fst hmemt)
      have hstep : ((initialFilterStep fields k1 v1).find? fun c => c.id = k)
          = none := by
        rw [List.find?_eq_none]
        intro c hc
        simp only [decide_eq_true_eq]
        intro hck
        have hid : c.id = k1 := initialFilterStep_id fields k1 v1 c hc
        rw [hid] at hck
        exact hk1 hck.symm
      rw [List.find?_append, hstep, Option.none_or]
      exact ih hnd'.2 hmemt

theorem initialFilterStep_filterable (fields : List FilterField) (k s : String)
    (f : FilterField) (hs : s ≠ "") (hfm : f ∈ fields) (hfv : f.value = k)
    (hopt : f.options.isSome = true) :
    initialFilterStep fields k (QueryValue.str s)
      = [⟨k, FilterValue.strList (jsSplitDot s)⟩] := by
  have hmem : f ∈ filterableColumns fields := List.mem_filter.mpr ⟨hfm, hopt⟩
  have hfind : ((filterableColumns fields).find? fun c => c.value = k).isSome := by
    rw [List.find?_isSome]
    exact ⟨f, hmem, by simp [hfv]⟩
  simp only [initialFilterStep]
  rw [if_pos ⟨string_length_ne_zero s hs, hfind⟩]

theorem initialFilterStep_searchable (fields : List FilterField) (k s : String)
    (f : FilterField) (hnd : (fields.map FilterField.value).Nodup)
    (hs : s ≠ "") (hfm : f ∈ fields) (hfv : f.value = k)
    (hopt : f.options = none) :
    initialFilterStep fields k (QueryValue.str s)
      = [⟨k, FilterValue.strList [s]⟩] := by
  have hfilt : ((filterableColumns fields).find? fun c => c.value = k) = none := by
    rw [List.find?_eq_none]
    intro g hg
    simp only [decide_eq_true_eq]
    intro hgv
    have hgm := (List.mem_filter.mp hg).1
    have hgopt := (List.mem_filter.mp hg).2
    have hgf : g = f := uniqueFieldValue fields hnd g f hgm hfm (by rw [hgv, hfv])
    rw [hgf, hopt] at hgopt
    simp at hgopt
  have hsearch : ((searchableColumns fields).find? fun c => c.value = k).isSome := by
    rw [List.find?_isSome]
    exact ⟨f, List.mem_filter.mpr ⟨hfm, by simp [hopt]⟩, by simp [hfv]⟩
  simp only [initialFilterStep]
  rw [if_neg (fun hcond => by rw [hfilt] at hcond; simp at hcond),
    if_pos ⟨string_length_ne_zero s hs, hsearch⟩]

theorem initialFilterStep_empty_or_unknown (fields : List FilterField)
    (k : String) (v : QueryValue)
    (h : v = QueryValue.str "" ∨ v = QueryValue.null
      ∨ ∀ f ∈ fields, f.value ≠ k) :
    initialFilterStep fields k v = [] := by
  rcases h with h | h | h
  · subst h
    simp only [initialFilterStep]
    rw [if_neg (fun hc => hc.1 rfl), if_neg (fun hc => hc.1 rfl)]
  · subst h
    rfl
  · cases v with
    | str s =>
      have hfilt : ((filterableColumns fields).find? fun c => c.value = k)
          = none := by
        rw [List.find?_eq_none]
        intro g hg
        simp only [decide_eq_true_eq]
        exact h g (List.mem_filter.mp hg).1
      have hsearch : ((searchableColumns fields).find? fun c => c.value = k)
          = none := by
        rw [List.find?_eq_none]
        intro g hg
        simp only [decide_eq_true_eq]
        exact h g (List.mem_filter.mp hg).1
      simp only [initialFilterStep]
      rw [if_neg (fun hc => by rw [hfilt] at hc; simp at hc),
        if_neg (fun hc => by rw [hsearch] at hc; simp at hc)]
    | int n => rfl
    | null => rfl

theorem debounceEmissions_settled (delay : Nat) (es : List ChangeEvent)
    (hs : es.Pairwise fun a b => a.time < b.time) :
    ∀ em ∈ debounceEmissions delay es, ∃ e ∈ es,
      em.time = e.time + delay ∧ em.value = e.value ∧
      ∀ f ∈ es, e.time < f.time → e.time + delay ≤ f.time := by
  induction es with
  | nil => intro em hem; cases hem
  | cons e t ih =>
    cases t with
    | nil =>
      intro em hem
      rcases List.mem_singleton.mp hem with rfl
      refine ⟨e, List.mem_singleton.mpr rfl, rfl, rfl, ?_⟩
      intro f hf hlt
      rcases List.mem_singleton.mp hf with rfl
      exact absurd hlt (lt_irrefl _)
    | cons f rest =>
      have hp := List.pairwise_cons.mp hs
      intro em hem
      by_cases hd : e.time + delay ≤ f.time
      · rw [show debounceEmissions delay (e :: f :: rest)
            = ⟨e.time + delay, e.value⟩ :: debounceEmissions delay (f :: rest)
            from by simp [debounceEmissions, hd]] at hem
        rcases List.mem_cons.mp hem with rfl | hem'
        · refine ⟨e, List.mem_cons_self _ _, rfl, rfl, ?_⟩
          intro g hg hlt
          rcases List.mem_cons.mp hg with rfl | hg'
          · exact absurd hlt (lt_irrefl _)
          · rcases List.mem_cons.mp hg' with rfl | hg''
            · exact hd
            · exact le_trans hd
                (le_of_lt ((List.pairwise_cons.mp hp.2).1 g hg''))
        · obtain ⟨e', he', h1, h2, h3⟩ := ih hp.2 em hem'
          refine ⟨e', List.mem_cons_of_mem e he', h1, h2, ?_⟩
          intro g hg hlt
          rcases List.mem_cons.mp hg with rfl | hg'
          · exact absurd (lt_trans hlt (hp.1 e' he')) (lt_irrefl _)
          · exact h3 g hg' hlt
      · rw [show debounceEmissions delay (e :: f :: rest)
            = debounceEmissions delay (f :: rest)
            from by simp [debounceEmissions, hd]] at hem
        obtain ⟨e', he', h1, h2, h3⟩ := ih hp.2 em hem
        refine ⟨e', List.mem_cons_of_mem e he', h1, h2, ?_⟩
        intro g hg hlt
        rcases List.mem_cons.mp hg with rfl | hg'
        · exact absurd (lt_trans hlt (hp.1 e' he')) (lt_irrefl _)
        · exact h3 g hg' hlt

theorem debounceEmissions_of_settled (delay : Nat) (es : List ChangeEvent)
    (hs : es.Pairwise fun a b => a.time < b.time) (e : ChangeEvent)
    (hem : e ∈ es)
    (hquiet : ∀ f ∈ es, e.time < f.time → e.time + delay ≤ f.time) :
    (⟨e.time + delay, e.value⟩ : ChangeEvent) ∈ debounceEmissions delay es := by
  induction es with
  | nil => cases hem
  | cons a t ih =>
    cases t with
    | nil =>
      rcases List.mem_singleton.mp hem with rfl
      exact List.mem_singleton.mpr rfl
    | cons f rest =>
      have hp := List.pairwise_cons.mp hs
      rcases List.mem_cons.mp hem with rfl | hmt
      · have hlt : e.time < f.time := hp.1 f (List.mem_cons_self f rest)
        have hd : e.time + delay ≤ f.time :=
          hquiet f (List.mem_cons_of_mem e (List.mem_cons_self f rest)) hlt
        rw [show debounceEmissions delay (e :: f :: rest)
            = ⟨e.time + delay, e.value⟩ :: debounceEmissions delay (f :: rest)
            from by simp [debounceEmissions, hd]]
        exact List.mem_cons_self _ _
      · have hrec := ih hp.2 hmt
          (fun g hg hlt => hquiet g (List.mem_cons_of_mem a hg) hlt)
        by_cases hd : a.time + delay ≤ f.time
        · rw [show debounceEmissions delay (a :: f :: rest)
              = ⟨a.time + delay, a.value⟩ :: debounceEmissions delay (f :: rest)
              from by simp [debounceEmissions, hd]]
          exact List.mem_cons_of_mem _ hrec
        · rw [show debounceEmissions delay (a :: f :: rest)
              = debounceEmissions delay (f :: rest)
              from by simp [debounceEmissions, hd]]
          exact hrec

theorem lookupP_filter_self {α : Type} (ps : List (String × α)) (k : String) :
    lookupP (ps.filter fun p => ¬p.1 = k) k = none := by
  have hfind : ((ps.filter fun p => ¬p.1 = k).find? fun p => p.1 = k)
      = none := by
    rw [List.find?_eq_none]
    intro x hx
    simp only [decide_eq_true_eq]
    have h2 := (List.mem_filter.mp hx).2
    simp only [decide_eq_true_eq] at h2
    exact h2
  rw [lookupP, hfind]
  rfl

theorem lookupP_filter_ne {α : Type} (ps : List (String × α)) (k k' : String)
    (h : k' ≠ k) : lookupP (ps.filter fun p => ¬p.1 = k) k' = lookupP ps k' := by
  induction ps with
  | nil => rfl
  | cons p rest ih =>
    by_cases hp : p.1 = k
    · rw [List.filter_cons_of_neg (by simp [hp]), ih]
      simp [lookupP, List.find?_cons, hp, Ne.symm h]
    · rw [List.filter_cons_of_pos (by simp [hp])]
      by_cases hp' : p.1 = k'
      · simp [lookupP, List.find?_cons, hp']
      · simpa [lookupP, List.find?_cons, hp'] using ih

theorem jsSplitDot_encode (id dir : String) (hdot : '.' ∉ id.data)
    (hdirdot : '.' ∉ dir.data) : jsSplitDot (id ++ "." ++ dir) = [id, dir] := by
  unfold jsSplitDot
  have hdata : (id ++ "." ++ dir).data = id.data ++ '.' :: dir.data := by
    rw [string_data_append, string_data_append]
    simp
  rw [hdata, splitDotChars_append_dot id.data dir.data hdot,
    splitDotChars_of_no_dot dir.data hdirdot]
  rfl

/-- C1 (counterexample): the claim quantifies over every sorting state whose
first entry has a non-empty column id, but for the id `"a.b"` (which
contains a `'.'`) the encoded parameter `"a.b.desc"` is split back into
column `"a"` and order `"b"`, so the restored sorting state is
`[{ id := "a", desc := false }]`, not the original
`[{ id := "a.b", desc := true }]`. -/
theorem c1_sort_roundtrip_counterexample :
    ("a.b" : String) ≠ ""
    ∧ sortParamOfSorting [⟨"a.b", true⟩] = some "a.b.desc"
    ∧ sortingOfSortParam (sortParamOfSorting [⟨"a.b", true⟩]) = [⟨"a", false⟩]
    ∧ ([⟨"a", false⟩] : List SortEntry) ≠ [⟨"a.b", true⟩] :=
  ⟨by decide, by decide, by decide, by decide⟩

/-- C1 (amended): for every sorting state whose first entry has a non-empty
column id containing no `'.'`, `useDataTable` encodes it into the `sort`
query parameter as `<id>.desc` when descending and `<id>.asc` when
ascending, and on restore parses that parameter by splitting on `'.'` back
into the same column id and the same direction. -/
theorem c1_sort_roundtrip (sorting : List SortEntry) (e : SortEntry)
    (hhead : sorting.head? = some e) (hid : e.id ≠ "")
    (hdot : '.' ∉ e.id.data) :
    sortParamOfSorting sorting
      = some (e.id ++ "." ++ (if e.desc then "desc" else "asc"))
    ∧ sortingOfSortParam (sortParamOfSorting sorting) = [e] := by
  have henc : sortParamOfSorting sorting
      = some (e.id ++ "." ++ (if e.desc then "desc" else "asc")) := by
    simp only [sortParamOfSorting, hhead]
    rw [if_neg hid]
  refine ⟨henc, ?_⟩
  rw [henc]
  cases hdesc : e.desc with
  | true =>
    simp only [if_true]
    simp only [sortingOfSortParam]
    simp only [jsSplitDot_encode e.id "desc" hdot (by decide)]
    simp only [List.head?_cons, Option.getD_some, List.getElem?_cons_succ,
      List.getElem?_cons_zero, if_true]
    rw [← hdesc]
  | false =>
    rw [if_neg (by decide)]
    simp only [sortingOfSortParam]
    simp only [jsSplitDot_encode e.id "asc" hdot (by decide)]
    simp only [List.head?_cons, Option.getD_some, List.getElem?_cons_succ,
      List.getElem?_cons_zero, Option.some.injEq]
    rw [if_neg (by decide), ← hdesc]

/-- C1 (witness): the amended round-trip evaluated at the concrete sorting
state `[{ id := "title", desc := false }]`. -/
theorem c1_sort_roundtrip_witness :
    (([⟨"title", false⟩] : List SortEntry).head? = some ⟨"title", false⟩
      ∧ ("title" : String) ≠ "" ∧ '.' ∉ ("title" : String).data)
    ∧ sortParamOfSorting [⟨"title", false⟩] = some "title.asc"
    ∧ sortingOfSortParam (sortParamOfSorting [⟨"title", false⟩])
        = [⟨"title", false⟩] := by
  refine ⟨⟨rfl, by decide, by decide⟩, ?_, ?_⟩
  · exact (c1_sort_roundtrip [⟨"title", false⟩] ⟨"title", false⟩ rfl
      (by decide) (by decide)).1
  · exact (c1_sort_roundtrip [⟨"title", false⟩] ⟨"title", false⟩ rfl
      (by decide) (by decide)).2

/-- C2 (counterexample): the claim quantifies over every array-of-strings
filter value, but for the value `["a.b"]` of the filterable key `"status"`
the effect writes the parameter `"a.b"`, and the initial-column-filters
computation splits it back into `["a", "b"]`, not the original `["a.b"]`. -/
theorem c2_faceted_roundtrip_counterexample :
    filterableAssigns [⟨"status", FilterValue.strList ["a.b"]⟩]
      = [("status", QueryValue.str "a.b")]
    ∧ initialFilterStep
        [⟨"Status", "status", none, some [⟨"Todo", "todo"⟩]⟩] "status"
        (QueryValue.str "a.b")
      = [⟨"status", FilterValue.strList ["a", "b"]⟩]
    ∧ (FilterValue.strList ["a", "b"] ≠ FilterValue.strList ["a.b"]) :=
  ⟨by decide, by decide, by decide⟩

/-- C2 (amended): for every filterable (options-bearing) column filter whose
value is an array of strings none of which contains `'.'` and whose
`'.'`-join is non-empty, the filter-sync effect writes the array to its
query parameter joined with `'.'`, and on restore the initial-column-filters
computation splits that parameter on `'.'` back into the original array. -/
theorem c2_faceted_roundtrip (fields : List FilterField) (k : String)
    (vs : List String) (f : FilterField)
    (hnd : (fields.map FilterField.value).Nodup)
    (hfm : f ∈ fields) (hfv : f.value = k) (hopt : f.options.isSome = true)
    (hdot : ∀ s ∈ vs, '.' ∉ s.data) (hne : jsJoinDot vs ≠ "")
    (inp : FilterSyncInput)
    (hadv : inp.enableAdvancedFilter = false) (hm : inp.mounted = true)
    (hds : inp.dsFilters = [])
    (hfs : inp.fFilters = [⟨k, FilterValue.strList vs⟩]) :
    pushedLookup (filterSyncEffect fields inp) k
      = some (QueryValue.str (jsJoinDot vs))
    ∧ initialFilterStep fields k (QueryValue.str (jsJoinDot vs))
      = [⟨k, FilterValue.strList vs⟩] := by
  have hvsne : vs ≠ [] := by
    intro h0
    apply hne
    rw [h0]
    rfl
  have hrestore : initialFilterStep fields k (QueryValue.str (jsJoinDot vs))
      = [⟨k, FilterValue.strList vs⟩] := by
    rw [initialFilterStep_filterable fields k (jsJoinDot vs) f hne hfm hfv hopt,
      jsSplitDot_jsJoinDot vs hdot hvsne]
  refine ⟨?_, hrestore⟩
  obtain ⟨adv, m, ds0, fs0, keys0, qs0⟩ := inp
  dsimp at hadv hm hds hfs
  subst hadv
  subst hm
  subst hds
  subst hfs
  have hsf : staleKey fields [] [⟨k, FilterValue.strList vs⟩] k = false := by
    have hsearchb : (searchableColumns fields).any (fun c => c.value = k)
        = false := by
      rw [List.any_eq_false]
      intro g hg
      simp only [decide_eq_true_eq]
      intro hgv
      have hgm := (List.mem_filter.mp hg).1
      have hgopt := (List.mem_filter.mp hg).2
      have hgf : g = f := uniqueFieldValue fields hnd g f hgm hfm
        (by rw [hgv, hfv])
      rw [hgf] at hgopt
      simp [hopt] at hgopt
    simp [staleKey, hsearchb]
  have hl3 : ∀ p ∈ removalAssigns fields [] [⟨k, FilterValue.strList vs⟩] keys0,
      p.1 ≠ k := by
    intro p hp hpk
    have hst := (mem_removalAssigns _ _ _ _ p hp).2.1
    rw [hpk, hsf] at hst
    exact absurd hst (by decide)
  show lookupP (applyAssigns qs0
      (newParamsObject fields [] [⟨k, FilterValue.strList vs⟩] keys0)) k
    = some (QueryValue.str (jsJoinDot vs))
  have hnp : lookupP
      (newParamsObject fields [] [⟨k, FilterValue.strList vs⟩] keys0) k
      = some (QueryValue.str (jsJoinDot vs)) := by
    show lookupP (applyAssigns
      (objAssign [("pageIndex", QueryValue.int 0)] k
        (QueryValue.str (jsJoinDot vs)))
      (removalAssigns fields [] [⟨k, FilterValue.strList vs⟩] keys0)) k = _
    rw [lookupP_applyAssigns_of_not_mem _ k hl3]
    exact lookupP_objAssign_self _ k _
  have hndnp : (keysOf
      (newParamsObject fields [] [⟨k, FilterValue.strList vs⟩] keys0)).Nodup := by
    show (keysOf (applyAssigns
      (objAssign [("pageIndex", QueryValue.int 0)] k
        (QueryValue.str (jsJoinDot vs)))
      (removalAssigns fields [] [⟨k, FilterValue.strList vs⟩] keys0))).Nodup
    exact nodupKeys_applyAssigns _ _
      (nodupKeys_objAssign _ k _ (by decide))
  exact lookupP_applyAssigns_of_lookupP _ k _ hndnp hnp qs0

/-- C2 (witness): the amended round-trip evaluated at the filterable field
`"status"` with the concrete filter value `["todo", "done"]`. -/
theorem c2_faceted_roundtrip_witness :
    ((([⟨"Status", "status", none, some [⟨"Todo", "todo"⟩]⟩] :
          List FilterField).map FilterField.value).Nodup
      ∧ (∀ s ∈ (["todo", "done"] : List String), '.' ∉ s.data)
      ∧ jsJoinDot ["todo", "done"] ≠ "")
    ∧ pushedLookup (filterSyncEffect
        [⟨"Status", "status", none, some [⟨"Todo", "todo"⟩]⟩]
        ⟨false, true, [], [⟨"status", FilterValue.strList ["todo", "done"]⟩],
          ["status"], []⟩) "status"
      = some (QueryValue.str (jsJoinDot ["todo", "done"]))
    ∧ initialFilterStep [⟨"Status", "status", none, some [⟨"Todo", "todo"⟩]⟩]
        "status" (QueryValue.str (jsJoinDot ["todo", "done"]))
      = [⟨"status", FilterValue.strList ["todo", "done"]⟩] := by
  refine ⟨⟨by decide, by decide, by decide⟩, ?_, ?_⟩
  · exact (c2_faceted_roundtrip
      [⟨"Status", "status", none, some [⟨"Todo", "todo"⟩]⟩] "status"
      ["todo", "done"] ⟨"Status", "status", none, some [⟨"Todo", "todo"⟩]⟩
      (by decide) (by decide) rfl rfl (by decide) (by decide)
      ⟨false, true, [], [⟨"status", FilterValue.strList ["todo", "done"]⟩],
        ["status"], []⟩ rfl rfl rfl rfl).1
  · exact (c2_faceted_roundtrip
      [⟨"Status", "status", none, some [⟨"Todo", "todo"⟩]⟩] "status"
      ["todo", "done"] ⟨"Status", "status", none, some [⟨"Todo", "todo"⟩]⟩
      (by decide) (by decide) rfl rfl (by decide) (by decide)
      ⟨false, true, [], [⟨"status", FilterValue.strList ["todo", "done"]⟩],
        ["status"], []⟩ rfl rfl rfl rfl).2

/-- C3: restoring filters from the URL.  For every key of the query state
(with pairwise-distinct keys, over filter fields with pairwise-distinct
values) whose value is a non-empty string: if the key names a filter field
that has options, the initial column filter for that key is the string split
on `'.'`; if it names a filter field without options, it is the one-element
array containing the string.  A key whose value is the empty string or null,
or that names no filter field, contributes no initial column filter. -/
theorem c3_initial_filters (fields : List FilterField)
    (qs : List (String × QueryValue)) (k : String)
    (hqs : (keysOf qs).Nodup) (hfields : (fields.map FilterField.value).Nodup) :
    (∀ s f, (k, QueryValue.str s) ∈ qs → s ≠ "" → f ∈ fields → f.value = k →
      f.options.isSome = true →
      (initialColumnFilters fields qs).find? (fun c => c.id = k)
        = some ⟨k, FilterValue.strList (jsSplitDot s)⟩)
    ∧ (∀ s f, (k, QueryValue.str s) ∈ qs → s ≠ "" → f ∈ fields → f.value = k →
      f.options = none →
      (initialColumnFilters fields qs).find? (fun c => c.id = k)
        = some ⟨k, FilterValue.strList [s]⟩)
    ∧ (∀ v, (k, v) ∈ qs →
      (v = QueryValue.str "" ∨ v = QueryValue.null
        ∨ ∀ f ∈ fields, f.value ≠ k) →
      (initialColumnFilters fields qs).find? (fun c => c.id = k) = none) := by
  refine ⟨?_, ?_, ?_⟩
  · intro s f hmem hs hfm hfv hopt
    rw [initialColumnFilters_find fields qs k (QueryValue.str s) hqs hmem,
      initialFilterStep_filterable fields k s f hs hfm hfv hopt]
    simp [List.find?_cons]
  · intro s f hmem hs hfm hfv hopt
    rw [initialColumnFilters_find fields qs k (QueryValue.str s) hqs hmem,
      initialFilterStep_searchable fields k s f hfields hs hfm hfv hopt]
    simp [List.find?_cons]
  · intro v hmem hv
    rw [initialColumnFilters_find fields qs k v hqs hmem,
      initialFilterStep_empty_or_unknown fields k v hv]
    rfl

/-- C3 (witness): the restore computation evaluated at a concrete query
state holding a faceted value, a search value, a numeric `pageIndex`, and an
empty string. -/
theorem c3_initial_filters_witness :
    ((keysOf [("status", QueryValue.str "todo.done"),
        ("title", QueryValue.str "fix"), ("pageIndex", QueryValue.int 2),
        ("empty", QueryValue.str "")]).Nodup
      ∧ (([⟨"Status", "status", none, some [⟨"Todo", "todo"⟩]⟩,
          ⟨"Title", "title", none, none⟩] :
            List FilterField).map FilterField.value).Nodup)
    ∧ (initialColumnFilters
        [⟨"Status", "status", none, some [⟨"Todo", "todo"⟩]⟩,
          ⟨"Title", "title", none, none⟩]
        [("status", QueryValue.str "todo.done"),
          ("title", QueryValue.str "fix"), ("pageIndex", QueryValue.int 2),
          ("empty", QueryValue.str "")]).find? (fun c => c.id = "status")
      = some ⟨"status", FilterValue.strList ["todo", "done"]⟩
    ∧ (initialColumnFilters
        [⟨"Status", "status", none, some [⟨"Todo", "todo"⟩]⟩,
          ⟨"Title", "title", none, none⟩]
        [("status", QueryValue.str "todo.done"),
          ("title", QueryValue.str "fix"), ("pageIndex", QueryValue.int 2),
          ("empty", QueryValue.str "")]).find? (fun c => c.id = "title")
      = some ⟨"title", FilterValue.strList ["fix"]⟩
    ∧ (initialColumnFilters
        [⟨"Status", "status", none, some [⟨"Todo", "todo"⟩]⟩,
          ⟨"Title", "title", none, none⟩]
        [("status", QueryValue.str "todo.done"),
          ("title", QueryValue.str "fix"), ("pageIndex", QueryValue.int 2),
          ("empty", QueryValue.str "")]).find? (fun c => c.id = "pageIndex")
      = none
    ∧ (initialColumnFilters
        [⟨"Status", "status", none, some [⟨"Todo", "todo"⟩]⟩,
          ⟨"Title", "title", none, none⟩]
        [("status", QueryValue.str "todo.done"),
          ("title", QueryValue.str "fix"), ("pageIndex", QueryValue.int 2),
          ("empty", QueryValue.str "")]).find? (fun c => c.id = "empty")
      = none := by
  refine ⟨⟨by decide, by decide⟩, ?_, ?_, ?_, ?_⟩
  · exact (c3_initial_filters _ _ "status" (by decide) (by decide)).1
      "todo.done" ⟨"Status", "status", none, some [⟨"Todo", "todo"⟩]⟩
      (by decide) (by decide) (by decide) rfl rfl
  · exact (c3_initial_filters _ _ "title" (by decide) (by decide)).2.1
      "fix" ⟨"Title", "title", none, none⟩
      (by decide) (by decide) (by decide) rfl rfl
  · exact (c3_initial_filters _ _ "pageIndex" (by decide) (by decide)).2.2
      (QueryValue.int 2) (by decide) (Or.inr (Or.inr (by decide)))
  · exact (c3_initial_filters _ _ "empty" (by decide) (by decide)).2.2
      (QueryValue.str "") (by decide) (Or.inl rfl)

/-- C4: URL updates driven by the debounced text input are debounced by
500 ms.  Every emission of the 500 ms debounce (which is what triggers the
URL-pushing effects of `useDataTable` and `DataTableAdvancedFilterItem`)
carries a value that had settled for the full 500 ms window — so while the
text keeps changing (gaps under 500 ms) no update carrying the new text is
issued — and conversely every change that settles for 500 ms is emitted at
its change time plus 500. -/
theorem c4_debounce_500 (es : List ChangeEvent)
    (hs : es.Pairwise fun a b => a.time < b.time) :
    (∀ em ∈ debounceEmissions 500 es, ∃ e ∈ es,
      em.time = e.time + 500 ∧ em.value = e.value ∧
      ∀ f ∈ es, e.time < f.time → e.time + 500 ≤ f.time)
    ∧ (∀ e ∈ es, (∀ f ∈ es, e.time < f.time → e.time + 500 ≤ f.time) →
      (⟨e.time + 500, e.value⟩ : ChangeEvent) ∈ debounceEmissions 500 es) :=
  ⟨debounceEmissions_settled 500 es hs,
   fun e hem hq => debounceEmissions_of_settled 500 es hs e hem hq⟩

/-- C4 (witness): the debounce characterization evaluated at the concrete
keystroke sequence at 0 ms, 100 ms and 1000 ms. -/
theorem c4_debounce_500_witness :
    ([⟨0, "a"⟩, ⟨100, "ab"⟩, ⟨1000, "abc"⟩] : List ChangeEvent).Pairwise
        (fun a b => a.time < b.time)
    ∧ ((∀ em ∈ debounceEmissions 500
          [⟨0, "a"⟩, ⟨100, "ab"⟩, ⟨1000, "abc"⟩], ∃ e ∈
          ([⟨0, "a"⟩, ⟨100, "ab"⟩, ⟨1000, "abc"⟩] : List ChangeEvent),
        em.time = e.time + 500 ∧ em.value = e.value ∧
        ∀ f ∈ ([⟨0, "a"⟩, ⟨100, "ab"⟩, ⟨1000, "abc"⟩] : List ChangeEvent),
          e.time < f.time → e.time + 500 ≤ f.time)
      ∧ (∀ e ∈ ([⟨0, "a"⟩, ⟨100, "ab"⟩, ⟨1000, "abc"⟩] : List ChangeEvent),
        (∀ f ∈ ([⟨0, "a"⟩, ⟨100, "ab"⟩, ⟨1000, "abc"⟩] : List ChangeEvent),
          e.time < f.time → e.time + 500 ≤ f.time) →
        (⟨e.time + 500, e.value⟩ : ChangeEvent) ∈ debounceEmissions 500
          [⟨0, "a"⟩, ⟨100, "ab"⟩, ⟨1000, "abc"⟩])) :=
  ⟨by decide, c4_debounce_500 [⟨0, "a"⟩, ⟨100, "ab"⟩, ⟨1000, "abc"⟩]
    (by decide)⟩

/-- C5: when no URL query parameters are present, the query state
`useDataTable` binds to the table takes the default values — pageIndex 0,
pageSize equal to `defaultPageSize` (10 when the caller omits it), and sort
equal to `defaultSort` (`"createdAt.desc"` when the caller omits it) — and
every filter-field parameter reads as null. -/
theorem c5_default_query_state (fields : List FilterField) (dps : Int)
    (ds : String) :
    useDataTableQueryState fields dps ds []
      = ⟨fields.map fun f => (f.value, none), 0, dps, ds⟩
    ∧ defaultPageSizeDefault = 10
    ∧ defaultSortDefault = "createdAt.desc"
    ∧ useDataTableQueryState fields defaultPageSizeDefault
        defaultSortDefault []
      = ⟨fields.map fun f => (f.value, none), 0, 10, "createdAt.desc"⟩ :=
  ⟨rfl, rfl, rfl, rfl⟩

/-- C10: on the first run of the filter-synchronization effect (mounted
still false), `useDataTable` performs no query-state update and no page
reset — with advanced filtering disabled it only sets the mounted flag to
true and returns, and for either value of the advanced-filter flag the URL
present at load is left intact by that run. -/
theorem c10_first_run_noop (fields : List FilterField)
    (ds fs : List ColumnFilter) (keys : List String)
    (qs : List (String × QueryValue)) :
    filterSyncEffect fields ⟨false, false, ds, fs, keys, qs⟩
      = ⟨true, none, false⟩
    ∧ ∀ adv : Bool,
      (filterSyncEffect fields ⟨adv, false, ds, fs, keys, qs⟩).pushedQueryState
        = none
      ∧ (filterSyncEffect fields ⟨adv, false, ds, fs, keys, qs⟩).pageResetCalled
        = false := by
  refine ⟨rfl, ?_⟩
  intro adv
  cases adv
  · exact ⟨rfl, rfl⟩
  · exact ⟨rfl, rfl⟩

/-- C9: when `enableAdvancedFilter` is true the filter-synchronization
effect returns before doing anything: over every sequence of filter changes
it pushes no query state, performs no page reset, and leaves the mounted
flag unchanged. -/
theorem c9_advanced_filter_noop (fields : List FilterField) (mounted : Bool)
    (changes : List FilterChange) :
    runFilterSync fields true mounted changes = (mounted, [], 0) := by
  induction changes generalizing mounted with
  | nil => rfl
  | cons c rest ih =>
    show runFilterSync fields true mounted (c :: rest) = (mounted, [], 0)
    simp only [runFilterSync]
    rw [show filterSyncEffect fields ⟨true, mounted, c.dsFilters, c.fFilters,
      c.searchParamKeys, c.queryState⟩ = ⟨mounted, none, false⟩ from rfl]
    rw [ih mounted]
    rfl

/-- C6: stale filter parameters are removed from the URL.  On a post-mount
run of the filter-sync effect with advanced filtering disabled, every
query-string key that names a searchable or filterable column but has no
corresponding active column filter is set to null in the pushed query
state. -/
theorem c6_stale_params_removed (fields : List FilterField)
    (inp : FilterSyncInput) (key : String)
    (hadv : inp.enableAdvancedFilter = false) (hm : inp.mounted = true)
    (hkey : key ∈ inp.searchParamKeys)
    (hcol : (searchableColumns fields).any (fun c => c.value = key) = true
      ∨ (filterableColumns fields).any (fun c => c.value = key) = true)
    (hds : ∀ c ∈ inp.dsFilters, c.id ≠ key)
    (hfs : ∀ c ∈ inp.fFilters, c.id ≠ key) :
    pushedLookup (filterSyncEffect fields inp) key = some QueryValue.null := by
  obtain ⟨adv, m, ds0, fs0, keys0, qs0⟩ := inp
  dsimp at hadv hm hkey hds hfs
  subst hadv
  subst hm
  show lookupP (applyAssigns qs0 (newParamsObject fields ds0 fs0 keys0)) key
    = some QueryValue.null
  have hst : staleKey fields ds0 fs0 key = true :=
    staleKey_true_of fields ds0 fs0 key hcol hds hfs
  have hmem3 : (key, QueryValue.null) ∈ removalAssigns fields ds0 fs0 keys0 :=
    removalAssigns_mem_intro fields ds0 fs0 keys0 key hkey hst
  have huniq3 : ∀ v, (key, v) ∈ removalAssigns fields ds0 fs0 keys0 →
      v = QueryValue.null := fun v hv =>
    (mem_removalAssigns fields ds0 fs0 keys0 (key, v) hv).2.2
  have hnp : lookupP (newParamsObject fields ds0 fs0 keys0) key
      = some QueryValue.null :=
    lookupP_applyAssigns_of_uniform _ key QueryValue.null hmem3 huniq3 _
  have hndnp : (keysOf (newParamsObject fields ds0 fs0 keys0)).Nodup :=
    nodupKeys_applyAssigns _ _ (nodupKeys_applyAssigns _ _
      (nodupKeys_applyAssigns _ _ (by decide)))
  exact lookupP_applyAssigns_of_lookupP _ key _ hndnp hnp qs0

/-- C6 (witness): the stale key `"title"` of a searchable column with no
active filter is nulled in the pushed query state. -/
theorem c6_stale_params_removed_witness :
    (("title" : String) ∈ (["title"] : List String)
      ∧ (searchableColumns [⟨"Title", "title", none, none⟩]).any
          (fun c => c.value = "title") = true)
    ∧ pushedLookup (filterSyncEffect [⟨"Title", "title", none, none⟩]
        ⟨false, true, [], [], ["title"], [("title", QueryValue.str "old")]⟩)
        "title"
      = some QueryValue.null := by
  refine ⟨⟨by decide, by decide⟩, ?_⟩
  exact c6_stale_params_removed [⟨"Title", "title", none, none⟩]
    ⟨false, true, [], [], ["title"], [("title", QueryValue.str "old")]⟩
    "title" rfl rfl (by decide) (Or.inl (by decide)) (by decide) (by decide)

/-- C8: every post-mount run of the filter-sync effect (advanced filtering
disabled) resets pagination to the first page: whatever the searchable and
filterable column filters are, the pushed query state carries pageIndex 0
and `table.setPageIndex(0)` is called. -/
theorem c8_page_reset (fields : List FilterField) (inp : FilterSyncInput)
    (hadv : inp.enableAdvancedFilter = false) (hm : inp.mounted = true)
    (hds : ∀ c ∈ inp.dsFilters, c.id ≠ "pageIndex")
    (hfs : ∀ c ∈ inp.fFilters, c.id ≠ "pageIndex")
    (hfield : ∀ f ∈ fields, f.value ≠ "pageIndex") :
    pushedLookup (filterSyncEffect fields inp) "pageIndex"
      = some (QueryValue.int 0)
    ∧ (filterSyncEffect fields inp).pageResetCalled = true := by
  obtain ⟨adv, m, ds0, fs0, keys0, qs0⟩ := inp
  dsimp at hadv hm hds hfs
  subst hadv
  subst hm
  refine ⟨?_, rfl⟩
  show lookupP (applyAssigns qs0 (newParamsObject fields ds0 fs0 keys0))
    "pageIndex" = some (QueryValue.int 0)
  have h1 : ∀ p ∈ searchableAssigns ds0, p.1 ≠ "pageIndex" := by
    intro p hp
    obtain ⟨c, hc, he⟩ := mem_searchableAssigns ds0 p hp
    rw [he]
    exact hds c hc
  have h2 : ∀ p ∈ filterableAssigns fs0, p.1 ≠ "pageIndex" := by
    intro p hp
    obtain ⟨c, hc, he⟩ := mem_filterableAssigns fs0 p hp
    rw [he]
    exact hfs c hc
  have h3 : ∀ p ∈ removalAssigns fields ds0 fs0 keys0, p.1 ≠ "pageIndex" := by
    intro p hp hpk
    have hst := (mem_removalAssigns fields ds0 fs0 keys0 p hp).2.1
    obtain ⟨f, hf, hfv⟩ := staleKey_field_exists fields ds0 fs0 p.1 hst
    rw [hpk] at hfv
    exact hfield f hf hfv
  have hnp : lookupP (newParamsObject fields ds0 fs0 keys0) "pageIndex"
      = some (QueryValue.int 0) := by
    show lookupP (applyAssigns (applyAssigns (applyAssigns
      [("pageIndex", QueryValue.int 0)] (searchableAssigns ds0))
      (filterableAssigns fs0)) (removalAssigns fields ds0 fs0 keys0))
      "pageIndex" = _
    rw [lookupP_applyAssigns_of_not_mem _ _ h3,
      lookupP_applyAssigns_of_not_mem _ _ h2,
      lookupP_applyAssigns_of_not_mem _ _ h1]
    rfl
  have hndnp : (keysOf (newParamsObject fields ds0 fs0 keys0)).Nodup :=
    nodupKeys_applyAssigns _ _ (nodupKeys_applyAssigns _ _
      (nodupKeys_applyAssigns _ _ (by decide)))
  exact lookupP_applyAssigns_of_lookupP _ _ _ hndnp hnp qs0

/-- C8 (witness): a post-mount run with an active searchable filter pushes
pageIndex 0 and calls the table page reset. -/
theorem c8_page_reset_witness :
    ((∀ c ∈ ([⟨"title", FilterValue.str "foo"⟩] : List ColumnFilter),
        c.id ≠ "pageIndex")
      ∧ ∀ f ∈ ([⟨"Title", "title", none, none⟩] : List FilterField),
        f.value ≠ "pageIndex")
    ∧ pushedLookup (filterSyncEffect [⟨"Title", "title", none, none⟩]
        ⟨false, true, [⟨"title", FilterValue.str "foo"⟩], [], ["title"],
          [("pageIndex", QueryValue.int 4)]⟩) "pageIndex"
      = some (QueryValue.int 0)
    ∧ (filterSyncEffect [⟨"Title", "title", none, none⟩]
        ⟨false, true, [⟨"title", FilterValue.str "foo"⟩], [], ["title"],
          [("pageIndex", QueryValue.int 4)]⟩).pageResetCalled = true := by
  refine ⟨⟨by decide, by decide⟩, ?_, ?_⟩
  · exact (c8_page_reset [⟨"Title", "title", none, none⟩]
      ⟨false, true, [⟨"title", FilterValue.str "foo"⟩], [], ["title"],
        [("pageIndex", QueryValue.int 4)]⟩ rfl rfl (by decide) (by decide)
      (by decide)).1
  · exact (c8_page_reset [⟨"Title", "title", none, none⟩]
      ⟨false, true, [⟨"title", FilterValue.str "foo"⟩], [], ["title"],
        [("pageIndex", QueryValue.int 4)]⟩ rfl rfl (by decide) (by decide)
      (by decide)).2

/-- C7: in `DataTableAdvancedFilterItem`, after the debounce settles: a
non-empty debounced value sets the query parameter named by the selected
option to `<value>.<filterVariety>`, an empty one deletes that parameter,
and in both cases every other existing query parameter is carried over
unchanged by `createQueryString` — which deletes a key for a null value and
stringifies and sets any other value. -/
theorem c7_advanced_filter_item (sp : List (String × String))
    (opt dv fv : String) :
    (dv ≠ "" → lookupP (advancedFilterItemPush sp opt dv fv) opt
      = some (dv ++ "." ++ fv))
    ∧ (dv = "" → lookupP (advancedFilterItemPush sp opt dv fv) opt = none)
    ∧ (∀ k, k ≠ opt → lookupP (advancedFilterItemPush sp opt dv fv) k
      = lookupP sp k)
    ∧ (∀ k, lookupP (createQueryString sp [(k, QueryValue.null)]) k = none)
    ∧ (∀ k s, lookupP (createQueryString sp [(k, QueryValue.str s)]) k
      = some s)
    ∧ (∀ k n, lookupP (createQueryString sp [(k, QueryValue.int n)]) k
      = some (toString n)) := by
  refine ⟨?_, ?_, ?_, ?_, ?_, ?_⟩
  · intro hdv
    have hlen : dv.length > 0 :=
      Nat.pos_of_ne_zero (string_length_ne_zero dv hdv)
    rw [advancedFilterItemPush, if_pos hlen]
    exact lookupP_objAssign_self sp opt (dv ++ "." ++ fv)
  · intro hdv
    subst hdv
    rw [advancedFilterItemPush, if_neg (by decide)]
    exact lookupP_filter_self sp opt
  · intro k hk
    by_cases hlen : dv.length > 0
    · rw [advancedFilterItemPush, if_pos hlen]
      exact lookupP_objAssign_ne sp opt k (dv ++ "." ++ fv) hk
    · rw [advancedFilterItemPush, if_neg hlen]
      exact lookupP_filter_ne sp opt k hk
  · intro k
    exact lookupP_filter_self sp k
  · intro k s
    exact lookupP_objAssign_self sp k s
  · intro k n
    exact lookupP_objAssign_self sp k (toString n)

/-- C7 (witness): the debounced advanced-filter push evaluated at concrete
search params, both for a non-empty and for an empty debounced value, with
an unrelated key carried over. -/
theorem c7_advanced_filter_item_witness :
    (("foo" : String) ≠ ""
      ∧ lookupP (advancedFilterItemPush [("a", "1"), ("title", "old")]
          "title" "foo" "contains") "title" = some "foo.contains")
    ∧ lookupP (advancedFilterItemPush [("a", "1"), ("title", "old")]
        "title" "" "contains") "title" = none
    ∧ (("a" : String) ≠ "title"
      ∧ lookupP (advancedFilterItemPush [("a", "1"), ("title", "old")]
          "title" "foo" "contains") "a"
        = lookupP [("a", "1"), ("title", "old")] "a") := by
  refine ⟨⟨by decide, ?_⟩, ?_, by decide, ?_⟩
  · exact (c7_advanced_filter_item [("a", "1"), ("title", "old")] "title"
      "foo" "contains").1 (by decide)
  · exact (c7_advanced_filter_item [("a", "1"), ("title", "old")] "title"
      "" "contains").2.1 rfl
  · exact (c7_advanced_filter_item [("a", "1"), ("title", "old")] "title"
      "foo" "contains").2.2.1 "a" (by decide)
